import Mathlib

set_option maxRecDepth 10000

/-!
Verification development for the mytheresa product-catalog service.

The Go source is shallowly embedded: the `shopspring/decimal` monetary type
is modelled by `Mytheresa.Decimal` (an integer coefficient times a power of
ten, exactly the library's representation), its `InexactFloat64` conversion
by an exact round-to-nearest-even binary64 model over rationals, and the
HTTP handlers of the catalog and categories packages by pure functions from
the request data and the repository outcome to a `HandlerResult`.
-/

deriving instance DecidableEq for Except

namespace Mytheresa

/-- Base-2 logarithm by structural recursion on a fuel argument, so that it
reduces in the kernel; `log2fuel f n = ⌊log₂ n⌋` whenever `1 ≤ n < 2 ^ f`. -/
def log2fuel : ℕ → ℕ → ℕ
  | 0, _ => 0
  | f + 1, n => if n < 2 then 0 else log2fuel f (n / 2) + 1

/-- `⌊log₂ n⌋` for `n ≥ 1` (0 at 0), using `n` itself as fuel. -/
def natLog2 (n : ℕ) : ℕ := log2fuel n n

/-- The binary64 exponent `e` of the positive rational `n / d`, i.e. the
unique `e` with `2 ^ e ≤ n / d` estimated from `natLog2` and corrected by
one exact comparison (`d * 2 ^ toNat z ≤ n * 2 ^ toNat (-z)` encodes
`2 ^ z ≤ n / d` over the integers). -/
def f64exp (n d : ℕ) : ℤ :=
  let est : ℤ := (natLog2 n : ℤ) - (natLog2 d : ℤ)
  if d * 2 ^ est.toNat ≤ n * 2 ^ (-est).toNat then est else est - 1

/-- Round the nonnegative rational `n2 / d2` to the nearest integer, ties to
even — the rounding used by binary64 floating point. -/
def roundNearestEven (n2 d2 : ℕ) : ℕ :=
  let fl := n2 / d2
  let r := n2 % d2
  if 2 * r < d2 then fl
  else if d2 < 2 * r then fl + 1
  else if fl % 2 = 0 then fl else fl + 1

/-- The binary64 (double) value nearest to the positive rational `n / d`,
as an exact rational: the significand is `n / d` scaled to `[2 ^ 52, 2 ^ 53]`
and rounded to nearest, ties to even.  Overflow and subnormal underflow are
not modelled; catalog prices (SQL type `decimal(10,2)`) are far inside the
normal range. -/
def f64pos (n d : ℕ) : ℚ :=
  let e := f64exp n d
  let m := roundNearestEven (n * 2 ^ (52 - e).toNat) (d * 2 ^ (e - 52).toNat)
  ((m * 2 ^ (e - 52).toNat : ℕ) : ℚ) / ((2 ^ (52 - e).toNat : ℕ) : ℚ)

/-- Model of `shopspring/decimal.Decimal`: the exact decimal
`value * 10 ^ exp`, an arbitrary-precision integer coefficient and an
integer exponent — the representation the Go library itself uses. -/
structure Decimal where
  value : ℤ
  exp : ℤ
  deriving DecidableEq

/-- `Decimal.IsZero`: the coefficient is zero (the library checks the sign
of the coefficient, ignoring the exponent). -/
def Decimal.isZero (d : Decimal) : Bool := d.value == 0

/-- Numerator of `|d|` written over the denominator `10 ^ toNat (-d.exp)`. -/
def Decimal.num (d : Decimal) : ℕ := d.value.natAbs * 10 ^ d.exp.toNat

/-- Denominator of `|d|`: `10 ^ toNat (-d.exp)`. -/
def Decimal.den (d : Decimal) : ℕ := 10 ^ (-d.exp).toNat

/-- The exact rational value of a decimal. -/
def Decimal.toRat (d : Decimal) : ℚ := (d.value : ℚ) * 10 ^ d.exp

/-- Model of `Decimal.InexactFloat64`: the binary64 double nearest to the
decimal's value, as the exact rational that double denotes.  This is the
conversion the Go handlers apply to every price placed in a DTO. -/
def Decimal.inexactFloat64 (d : Decimal) : ℚ :=
  if d.value = 0 then 0
  else if d.value < 0 then -f64pos d.num d.den
  else f64pos d.num d.den

/-- ASCII upper-casing of one character, as Go's `strings.ToUpper` acts on
ASCII input (the handler's category values are ASCII). -/
def upperChar (c : Char) : Char :=
  if 'a' ≤ c ∧ c ≤ 'z' then Char.ofNat (c.toNat - 32) else c

/-- Model of `strings.ToUpper` (ASCII fragment). -/
def toUpperStr (s : String) : String := ⟨s.data.map upperChar⟩

/-- ASCII whitespace, as trimmed by Go's `strings.TrimSpace` (the Unicode
space classes beyond ASCII are not modelled). -/
def isSpaceChar (c : Char) : Bool :=
  c = ' ' || c = '\t' || c = '\n' || c = '\r' || c = Char.ofNat 11 || c = Char.ofNat 12

/-- Model of `strings.TrimSpace`: drop whitespace from both ends. -/
def trimStr (s : String) : String :=
  ⟨((s.data.dropWhile isSpaceChar).reverse.dropWhile isSpaceChar).reverse⟩

/-- Lower-case hexadecimal digit. -/
def hexDigitChar (n : ℕ) : Char :=
  if n < 10 then Char.ofNat (48 + n) else Char.ofNat (87 + n)

/-- One character of Go's `%q` (`strconv.Quote`) output: quote and backslash
are escaped, other printable ASCII is kept verbatim; control characters get
a simplified `\xNN` escape (Go's exact escape spelling for non-printable
input is not needed by the handlers' error paths). -/
def goEscapeChar (c : Char) : List Char :=
  if c = '\"' then ['\\', '\"']
  else if c = '\\' then ['\\', '\\']
  else if c.toNat < 32 ∨ c.toNat = 127 then
    ['\\', 'x', hexDigitChar (c.toNat / 16), hexDigitChar (c.toNat % 16)]
  else [c]

/-- Model of `fmt`'s `%q` verb on a string: the value surrounded by double
quotes, with escaping as in `goEscapeChar`. -/
def goQuote (s : String) : String :=
  ⟨'\"' :: s.data.foldr (fun c acc => goEscapeChar c ++ acc) ['\"']⟩

/-- Printable ASCII needing no `%q` escape: for such strings `%q` is exactly
the original surrounded by quotes. -/
def plainChar (c : Char) : Bool :=
  32 ≤ c.toNat && c.toNat < 127 && c ≠ '\"' && c ≠ '\\'

/-- Value of a decimal digit. -/
def digitVal (c : Char) : Option ℕ :=
  if '0' ≤ c ∧ c ≤ '9' then some (c.toNat - 48) else none

/-- Accumulate a base-10 natural from digit characters; `none` on any
non-digit. -/
def digitsAux : List Char → ℕ → Option ℕ
  | [], acc => some acc
  | c :: cs, acc =>
    match digitVal c with
    | some d => digitsAux cs (acc * 10 + d)
    | none => none

/-- A non-empty all-digit string as a natural number. -/
def digitsToNat (l : List Char) : Option ℕ :=
  if l.isEmpty then none else digitsAux l 0

/-- Magnitude and 64-bit range check shared by the `strconv.Atoi` model:
Go's `int` is 64-bit and out-of-range input is an error. -/
def atoiCore (neg : Bool) (l : List Char) : Option ℤ :=
  match digitsToNat l with
  | none => none
  | some n =>
    let z : ℤ := if neg then -(n : ℤ) else (n : ℤ)
    if z < -(2 ^ 63) ∨ 2 ^ 63 - 1 < z then none else some z

/-- Model of Go's `strconv.Atoi`: optional sign, then one or more decimal
digits, within the 64-bit `int` range; anything else is an error (`none`). -/
def atoi (s : String) : Option ℤ :=
  match s.data with
  | '+' :: l => atoiCore false l
  | '-' :: l => atoiCore true l
  | l => atoiCore false l

/-- Split at the first exponent marker `e`/`E`, as
`decimal.NewFromString` does. -/
def splitMantExp : List Char → List Char × Option (List Char)
  | [] => ([], none)
  | c :: cs =>
    if c = 'e' ∨ c = 'E' then ([], some cs)
    else
      let p := splitMantExp cs
      (c :: p.1, p.2)

/-- Split at the first decimal point. -/
def splitAtDot : List Char → List Char × Option (List Char)
  | [] => ([], none)
  | c :: cs =>
    if c = '.' then ([], some cs)
    else
      let p := splitAtDot cs
      (c :: p.1, p.2)

/-- Model of `big.Int.SetString` base 10: optional sign then digits, with
no size limit. -/
def parseSignedDigits : List Char → Option ℤ
  | '+' :: l => (digitsToNat l).map fun n => (n : ℤ)
  | '-' :: l => (digitsToNat l).map fun n => -(n : ℤ)
  | l => (digitsToNat l).map fun n => (n : ℤ)

/-- Exponent part of a decimal literal: `strconv.ParseInt(_, 10, 32)` as
`NewFromString` uses. -/
def parseExpPart (l : List Char) : Option ℤ :=
  match l with
  | '+' :: r => (digitsToNat r).bind fun n =>
      if (n : ℤ) ≤ 2 ^ 31 - 1 then some (n : ℤ) else none
  | '-' :: r => (digitsToNat r).bind fun n =>
      if (n : ℤ) ≤ 2 ^ 31 then some (-(n : ℤ)) else none
  | r => (digitsToNat r).bind fun n =>
      if (n : ℤ) ≤ 2 ^ 31 - 1 then some (n : ℤ) else none

/-- Mantissa of a decimal literal with a starting exponent `e0`: at most one
decimal point; the digits on both sides are concatenated into the
coefficient and the fractional length is subtracted from the exponent,
exactly as `decimal.NewFromString` builds its value. -/
def parseDecMantissa (l : List Char) (e0 : ℤ) : Option Decimal :=
  let p := splitAtDot l
  match p.2 with
  | none => (parseSignedDigits p.1).map fun v => ⟨v, e0⟩
  | some frac =>
    if frac.contains '.' then none
    else (parseSignedDigits (p.1 ++ frac)).map fun v => ⟨v, e0 - frac.length⟩

/-- Model of `decimal.NewFromString`. -/
def parseDecimal (s : String) : Option Decimal :=
  let p := splitMantExp s.data
  match p.2 with
  | none => parseDecMantissa p.1 0
  | some ec => (parseExpPart ec).bind fun e2 => parseDecMantissa p.1 e2

/-- A decoded query string: ordered key-value pairs. -/
abbrev Query := List (String × String)

/-- Model of `r.URL.Query().Get(key)`: the first value for the key, or the
empty string when the key is absent. -/
def qget : Query → String → String
  | [], _ => ""
  | (k, v) :: rest, key => if k = key then v else qget rest key

/-- `models.ProductQueryParameters` (with the embedded pagination fields
flattened): the validated filter the parser produces. -/
structure ProductQueryParameters where
  offset : ℤ
  limit : ℤ
  category : String
  priceLessThan : Option Decimal
  deriving DecidableEq

/-- `validCategory` from the catalog handler: membership in the hardcoded
allow-list. -/
def validCategory (c : String) : Bool :=
  c == "CLOTHING" || c == "SHOES" || c == "ACCESSORIES"

/-- The `offset` block of `parseQueryOptions`: absent (or empty) keeps the
default 0; otherwise `strconv.Atoi` must succeed with a nonnegative value,
else `invalid offset parameter`. -/
def parseOffset (q : Query) : Except String ℤ :=
  let s := qget q "offset"
  if s = "" then .ok 0
  else
    match atoi s with
    | none => .error "invalid offset parameter"
    | some o => if o < 0 then .error "invalid offset parameter" else .ok o

/-- The `limit` block of `parseQueryOptions`: absent keeps the default 10;
otherwise `strconv.Atoi` must succeed with a value in `[1, 100]`, else
`limit must be between 1 and 100`. -/
def parseLimit (q : Query) : Except String ℤ :=
  let s := qget q "limit"
  if s = "" then .ok 10
  else
    match atoi s with
    | none => .error "limit must be between 1 and 100"
    | some l =>
      if l < 1 ∨ 100 < l then .error "limit must be between 1 and 100" else .ok l

/-- The `category` block of `parseQueryOptions`: absent keeps the empty
default; otherwise the value is upper-cased and trimmed and must pass
`validCategory`, else `invalid category %q` with the original value. -/
def parseCategory (q : Query) : Except String String :=
  let c := qget q "category"
  if c = "" then .ok ""
  else
    let n := trimStr (toUpperStr c)
    if validCategory n then .ok n
    else .error ("invalid category " ++ goQuote c)

/-- The `price_less_than` block of `parseQueryOptions`: absent keeps `none`;
otherwise `decimal.NewFromString` must succeed, else
`invalid price_less_than parameter`. -/
def parsePriceLessThan (q : Query) : Except String (Option Decimal) :=
  let s := qget q "price_less_than"
  if s = "" then .ok none
  else
    match parseDecimal s with
    | none => .error "invalid price_less_than parameter"
    | some d => .ok (some d)

/-- `parseQueryOptions` from the catalog handler: the four parameter blocks
run in source order, stopping at the first failure. -/
def parseQueryOptions (q : Query) : Except String ProductQueryParameters :=
  match parseOffset q with
  | .error e => .error e
  | .ok o =>
    match parseLimit q with
    | .error e => .error e
    | .ok l =>
      match parseCategory q with
      | .error e => .error e
      | .ok c =>
        match parsePriceLessThan q with
        | .error e => .error e
        | .ok pr => .ok ⟨o, l, c, pr⟩

/-- `models.Category`. -/
structure Category where
  code : String
  name : String
  deriving DecidableEq

/-- `models.Variant`. -/
structure Variant where
  name : String
  sku : String
  price : Decimal
  deriving DecidableEq

/-- `models.Product` (the gorm bookkeeping fields are irrelevant to the
handlers). -/
structure Product where
  code : String
  price : Decimal
  category : Option Category
  variants : List Variant
  deriving DecidableEq

/-- `catalog.CategoryDTO`. -/
structure CategoryDTO where
  code : String
  name : String
  deriving DecidableEq

/-- `catalog.ProductDTO`; the `float64` price field is modelled as the exact
rational the rendered double denotes. -/
structure ProductDTO where
  code : String
  price : ℚ
  category : Option CategoryDTO
  deriving DecidableEq

/-- `catalog.VariantDTO`. -/
structure VariantDTO where
  name : String
  sku : String
  price : ℚ
  deriving DecidableEq

/-- `catalog.ProductDetailResponse`. -/
structure ProductDetailResponse where
  code : String
  price : ℚ
  category : Option CategoryDTO
  variants : List VariantDTO
  deriving DecidableEq

/-- `catalog.Response`: the list envelope `{products, total, offset, limit}`. -/
structure ListResponse where
  products : List ProductDTO
  total : ℤ
  offset : ℤ
  limit : ℤ
  deriving DecidableEq

/-- The outcome of a handler: `api.OKResponse` with a body, or
`api.ErrorResponse` with a status and message. -/
inductive HandlerResult (α : Type) where
  | ok : α → HandlerResult α
  | err : ℕ → String → HandlerResult α
  deriving DecidableEq

/-- Category record to DTO. -/
def categoryToDTO (c : Category) : CategoryDTO := ⟨c.code, c.name⟩

/-- The DTO mapping of `HandleGet`: price rendered through
`InexactFloat64`, category copied when present. -/
def productToDTO (p : Product) : ProductDTO :=
  ⟨p.code, p.price.inexactFloat64, p.category.map categoryToDTO⟩

/-- The variant mapping of `HandleGetByCode`: a variant whose stored price
`IsZero` takes the parent product's price, then the effective price is
rendered through `InexactFloat64`. -/
def mapVariant (productPrice : Decimal) (v : Variant) : VariantDTO :=
  let price := if v.price.isZero then productPrice else v.price
  ⟨v.name, v.sku, price.inexactFloat64⟩

/-- The success body of `HandleGetByCode`. -/
def productDetailResponse (p : Product) : ProductDetailResponse :=
  ⟨p.code, p.price.inexactFloat64, p.category.map categoryToDTO,
    p.variants.map (mapVariant p.price)⟩

/-- Outcome of `repo.GetProductByCode`: a record, gorm's
`ErrRecordNotFound`, or any other error. -/
inductive GetByCodeResult where
  | found : Product → GetByCodeResult
  | notFound : GetByCodeResult
  | failure : String → GetByCodeResult
  deriving DecidableEq

/-- `HandleGetByCode`: empty code is a 400, a not-found repository outcome
a 404 with `product not found`, any other repository error a 500 carrying
its message, and a found record is mapped to the detail response. -/
def handleGetByCode (code : String) (repo : GetByCodeResult) :
    HandlerResult ProductDetailResponse :=
  if code = "" then .err 400 "product code is required"
  else
    match repo with
    | .found p => .ok (productDetailResponse p)
    | .notFound => .err 404 "product not found"
    | .failure msg => .err 500 msg

/-- `HandleGet`: parse the query (400 on a validation error), call
`repo.GetProducts` with the parsed options (500 on error), and return the
mapped DTOs in the envelope echoing the resolved offset and limit. -/
def handleGet (q : Query)
    (repo : ProductQueryParameters → Except String (List Product × ℤ)) :
    HandlerResult ListResponse :=
  match parseQueryOptions q with
  | .error e => .err 400 e
  | .ok opts =>
    match repo opts with
    | .error e => .err 500 e
    | .ok (res, total) => .ok ⟨res.map productToDTO, total, opts.offset, opts.limit⟩

/-- `categories.CreateCategoryRequest`. -/
structure CreateCategoryRequest where
  code : String
  name : String
  deriving DecidableEq

/-- `categories.CategoryResponse`. -/
structure CategoryResponse where
  code : String
  name : String
  deriving DecidableEq

/-- The category record `HandleCreate` builds from the request and hands to
`repo.CreateCategory` — the code and name are copied verbatim. -/
def persistedCategory (req : CreateCategoryRequest) : Category :=
  ⟨req.code, req.name⟩

/-- `HandleCreate`: a body that fails to decode (`none`) is a 400
`invalid request body`; a decoded body with an empty code or name is a 400
`code and name are required`; otherwise the built record is persisted
(500 with the repository's message on failure) and echoed back. -/
def handleCreate (body : Option CreateCategoryRequest)
    (repo : Category → Except String Unit) : HandlerResult CategoryResponse :=
  match body with
  | none => .err 400 "invalid request body"
  | some req =>
    if req.code = "" ∨ req.name = "" then .err 400 "code and name are required"
    else
      match repo (persistedCategory req) with
      | .error e => .err 500 e
      | .ok _ => .ok ⟨(persistedCategory req).code, (persistedCategory req).name⟩

/-! ### Properties of the binary64 rounding model -/

lemma log2fuel_spec (f : ℕ) : ∀ n, 1 ≤ n → n < 2 ^ f →
    2 ^ log2fuel f n ≤ n ∧ n < 2 ^ (log2fuel f n + 1) := by
  induction f with
  | zero =>
    intro n h1 h2
    simp only [pow_zero] at h2
    omega
  | succ f ih =>
    intro n h1 h2
    by_cases hn : n < 2
    · have hn1 : n = 1 := by omega
      subst hn1
      simp [log2fuel]
    · have h1' : 1 ≤ n / 2 := by omega
      have h2' : n / 2 < 2 ^ f := by
        rw [pow_succ] at h2
        omega
      obtain ⟨a, b⟩ := ih (n / 2) h1' h2'
      have heq : log2fuel (f + 1) n = log2fuel f (n / 2) + 1 := by
        simp [log2fuel, hn]
      rw [heq, pow_succ, pow_succ]
      rw [pow_succ] at b
      omega

lemma natLog2_spec (n : ℕ) (h : 1 ≤ n) :
    2 ^ natLog2 n ≤ n ∧ n < 2 ^ (natLog2 n + 1) :=
  log2fuel_spec n n h (Nat.lt_two_pow n)

lemma pow2_toNat_split (z : ℤ) :
    (2 : ℚ) ^ z.toNat = (2 : ℚ) ^ z * (2 : ℚ) ^ (-z).toNat := by
  rw [← zpow_natCast (2 : ℚ) z.toNat, ← zpow_natCast (2 : ℚ) (-z).toNat,
    ← zpow_add₀ (two_ne_zero : (2 : ℚ) ≠ 0)]
  congr 1
  omega

lemma pow2_le_div_iff (n d : ℕ) (hd : 0 < d) (z : ℤ) :
    (d * 2 ^ z.toNat ≤ n * 2 ^ (-z).toNat) ↔ (2 : ℚ) ^ z ≤ (n : ℚ) / (d : ℚ) := by
  have hd' : (0 : ℚ) < (d : ℚ) := by exact_mod_cast hd
  have hY : (0 : ℚ) < (2 : ℚ) ^ (-z).toNat := by positivity
  rw [← Nat.cast_le (α := ℚ)]
  push_cast
  rw [le_div_iff₀ hd', pow2_toNat_split z,
    show (d : ℚ) * ((2 : ℚ) ^ z * (2 : ℚ) ^ (-z).toNat)
      = ((2 : ℚ) ^ z * (d : ℚ)) * (2 : ℚ) ^ (-z).toNat by ring]
  exact mul_le_mul_right hY

lemma natLog2_lower (n d : ℕ) (hn : 1 ≤ n) (hd : 1 ≤ d) :
    (2 : ℚ) ^ ((natLog2 n : ℤ) - (natLog2 d : ℤ) - 1) < (n : ℚ) / (d : ℚ) := by
  obtain ⟨hn1, _⟩ := natLog2_spec n hn
  obtain ⟨_, hd2⟩ := natLog2_spec d hd
  have hn' : (0 : ℚ) < (n : ℚ) := by exact_mod_cast hn
  have hd' : (0 : ℚ) < (d : ℚ) := by exact_mod_cast hd
  have h1 : (2 : ℚ) ^ ((natLog2 n : ℕ) : ℤ) ≤ (n : ℚ) := by
    rw [zpow_natCast]
    exact_mod_cast hn1
  have h2 : (d : ℚ) < (2 : ℚ) ^ ((natLog2 d : ℤ) + 1) := by
    rw [show (natLog2 d : ℤ) + 1 = ((natLog2 d + 1 : ℕ) : ℤ) by push_cast; ring,
      zpow_natCast]
    exact_mod_cast hd2
  have hpow : (0 : ℚ) < (2 : ℚ) ^ ((natLog2 d : ℤ) + 1) := by positivity
  have key : (2 : ℚ) ^ ((natLog2 n : ℤ) - ((natLog2 d : ℤ) + 1)) < (n : ℚ) / (d : ℚ) := by
    rw [zpow_sub₀ (two_ne_zero : (2 : ℚ) ≠ 0)]
    calc (2 : ℚ) ^ ((natLog2 n : ℕ) : ℤ) / (2 : ℚ) ^ ((natLog2 d : ℤ) + 1)
        ≤ (n : ℚ) / (2 : ℚ) ^ ((natLog2 d : ℤ) + 1) := by gcongr
      _ < (n : ℚ) / (d : ℚ) := by gcongr
  have : (natLog2 n : ℤ) - (natLog2 d : ℤ) - 1 = (natLog2 n : ℤ) - ((natLog2 d : ℤ) + 1) := by
    ring
  rw [this]
  exact key

lemma f64exp_le (n d : ℕ) (hn : 1 ≤ n) (hd : 1 ≤ d) :
    (2 : ℚ) ^ f64exp n d ≤ (n : ℚ) / (d : ℚ) := by
  simp only [f64exp]
  split_ifs with h
  · exact (pow2_le_div_iff n d hd _).mp h
  · exact le_of_lt (natLog2_lower n d hn hd)

lemma roundNearestEven_one_le (n2 d2 : ℕ) (h : d2 ≤ n2) (hd : 0 < d2) :
    1 ≤ roundNearestEven n2 d2 := by
  have hfl : 1 ≤ n2 / d2 := (Nat.one_le_div_iff hd).mpr h
  simp only [roundNearestEven]
  split_ifs <;> omega

lemma f64pos_den_le_num (n d : ℕ) (hn : 1 ≤ n) (hd : 1 ≤ d) :
    d * 2 ^ (f64exp n d - 52).toNat ≤ n * 2 ^ (52 - f64exp n d).toNat := by
  have hd' : (0 : ℚ) < (d : ℚ) := by exact_mod_cast hd
  have h1 : (2 : ℚ) ^ f64exp n d ≤ (n : ℚ) / (d : ℚ) := f64exp_le n d hn hd
  have h2 : (2 : ℚ) ^ f64exp n d * (d : ℚ) ≤ (n : ℚ) := (le_div_iff₀ hd').mp h1
  have hY : (0 : ℚ) < (2 : ℚ) ^ (f64exp n d - 52).toNat := by positivity
  rw [← Nat.cast_le (α := ℚ)]
  push_cast
  have hsplit : (2 : ℚ) ^ (52 - f64exp n d).toNat
      = (2 : ℚ) ^ (52 - f64exp n d) * (2 : ℚ) ^ (f64exp n d - 52).toNat := by
    rw [pow2_toNat_split (52 - f64exp n d),
      show -(52 - f64exp n d) = f64exp n d - 52 by ring]
  rw [hsplit, show (n : ℚ) * ((2 : ℚ) ^ (52 - f64exp n d) * (2 : ℚ) ^ (f64exp n d - 52).toNat)
      = ((n : ℚ) * (2 : ℚ) ^ (52 - f64exp n d)) * (2 : ℚ) ^ (f64exp n d - 52).toNat by ring]
  refine (mul_le_mul_right hY).mpr ?_
  calc (d : ℚ) = (d : ℚ) * 1 := by ring
    _ ≤ (d : ℚ) * ((2 : ℚ) ^ f64exp n d * (2 : ℚ) ^ (52 - f64exp n d)) := by
        refine mul_le_mul_of_nonneg_left ?_ (le_of_lt hd')
        rw [← zpow_add₀ (two_ne_zero : (2 : ℚ) ≠ 0),
          show f64exp n d + (52 - f64exp n d) = (52 : ℤ) by ring]
        norm_num
    _ = ((2 : ℚ) ^ f64exp n d * (d : ℚ)) * (2 : ℚ) ^ (52 - f64exp n d) := by ring
    _ ≤ (n : ℚ) * (2 : ℚ) ^ (52 - f64exp n d) := by
        refine mul_le_mul_of_nonneg_right h2 ?_
        positivity

lemma f64pos_pos (n d : ℕ) (hn : 1 ≤ n) (hd : 1 ≤ d) : 0 < f64pos n d := by
  have hle := f64pos_den_le_num n d hn hd
  have hd2 : 0 < d * 2 ^ (f64exp n d - 52).toNat := by positivity
  have hm : 1 ≤ roundNearestEven (n * 2 ^ (52 - f64exp n d).toNat)
      (d * 2 ^ (f64exp n d - 52).toNat) := roundNearestEven_one_le _ _ hle hd2
  simp only [f64pos]
  apply div_pos
  · have : 0 < roundNearestEven (n * 2 ^ (52 - f64exp n d).toNat)
        (d * 2 ^ (f64exp n d - 52).toNat) * 2 ^ (f64exp n d - 52).toNat := by positivity
    exact_mod_cast this
  · have : (0 : ℕ) < 2 ^ (52 - f64exp n d).toNat := by positivity
    exact_mod_cast this

lemma f64pos_dyadic (n d : ℕ) : ∃ (m k : ℤ), f64pos n d = (m : ℚ) * 2 ^ k := by
  refine ⟨(roundNearestEven (n * 2 ^ (52 - f64exp n d).toNat)
      (d * 2 ^ (f64exp n d - 52).toNat) * 2 ^ (f64exp n d - 52).toNat : ℕ),
    -(((52 - f64exp n d).toNat : ℕ) : ℤ), ?_⟩
  simp only [f64pos]
  rw [zpow_neg, zpow_natCast, div_eq_mul_inv]
  push_cast
  ring

/-! ### Properties of the decimal model -/

lemma Decimal.isZero_iff (d : Decimal) : d.isZero = true ↔ d.value = 0 := by
  simp [Decimal.isZero]

lemma Decimal.num_pos (d : Decimal) (h : d.value ≠ 0) : 1 ≤ d.num := by
  have : 1 ≤ d.value.natAbs := by omega
  have hp : 1 ≤ 10 ^ d.exp.toNat := Nat.one_le_pow _ _ (by norm_num)
  calc 1 = 1 * 1 := by ring
    _ ≤ d.value.natAbs * 10 ^ d.exp.toNat := Nat.mul_le_mul this hp
    _ = d.num := rfl

lemma Decimal.den_pos (d : Decimal) : 1 ≤ d.den :=
  Nat.one_le_pow _ _ (by norm_num)

lemma Decimal.inexactFloat64_eq_zero_iff (d : Decimal) :
    d.inexactFloat64 = 0 ↔ d.value = 0 := by
  simp only [Decimal.inexactFloat64]
  split_ifs with h1 h2
  · simp [h1]
  · have hp := f64pos_pos d.num d.den (d.num_pos h1) d.den_pos
    constructor
    · intro h
      exfalso
      have : f64pos d.num d.den = 0 := by linarith [neg_eq_zero.mp h]
      linarith
    · intro h
      exact absurd h h1
  · have hp := f64pos_pos d.num d.den (d.num_pos h1) d.den_pos
    constructor
    · intro h
      exact absurd h (ne_of_gt hp)
    · intro h
      exact absurd h h1

lemma Decimal.inexactFloat64_dyadic (d : Decimal) :
    ∃ (m k : ℤ), d.inexactFloat64 = (m : ℚ) * 2 ^ k := by
  simp only [Decimal.inexactFloat64]
  split_ifs with h1 h2
  · exact ⟨0, 0, by norm_num⟩
  · obtain ⟨m, k, hmk⟩ := f64pos_dyadic d.num d.den
    exact ⟨-m, k, by rw [hmk]; push_cast; ring⟩
  · exact f64pos_dyadic d.num d.den

/-! ### Properties of the query parser -/

lemma validCategory_iff (c : String) :
    validCategory c = true ↔ (c = "CLOTHING" ∨ c = "SHOES" ∨ c = "ACCESSORIES") := by
  simp [validCategory, or_assoc]

lemma parseOffset_absent (q : Query) (h : qget q "offset" = "") :
    parseOffset q = .ok 0 := by
  simp [parseOffset, h]

lemma parseLimit_absent (q : Query) (h : qget q "limit" = "") :
    parseLimit q = .ok 10 := by
  simp [parseLimit, h]

lemma parseCategory_absent (q : Query) (h : qget q "category" = "") :
    parseCategory q = .ok "" := by
  simp [parseCategory, h]

lemma parsePriceLessThan_absent (q : Query) (h : qget q "price_less_than" = "") :
    parsePriceLessThan q = .ok none := by
  simp [parsePriceLessThan, h]

lemma parseOffset_ok_nonneg (q : Query) (o : ℤ) (h : parseOffset q = .ok o) :
    0 ≤ o := by
  simp only [parseOffset] at h
  split_ifs at h with h1
  · simp only [Except.ok.injEq] at h
    omega
  · split at h
    · simp at h
    · split_ifs at h with h2
      simp only [Except.ok.injEq] at h
      omega

lemma parseLimit_ok_range (q : Query) (l : ℤ) (h : parseLimit q = .ok l) :
    1 ≤ l ∧ l ≤ 100 := by
  simp only [parseLimit] at h
  split_ifs at h with h1
  · simp only [Except.ok.injEq] at h
    omega
  · split at h
    · simp at h
    · split_ifs at h with h2
      simp only [Except.ok.injEq] at h
      omega

lemma parseLimit_ok_atoi (q : Query) (l : ℤ) (h : parseLimit q = .ok l)
    (hne : qget q "limit" ≠ "") : atoi (qget q "limit") = some l := by
  simp only [parseLimit] at h
  rw [if_neg hne] at h
  split at h
  · simp at h
  · rename_i l2 heq
    split_ifs at h with h2
    simp only [Except.ok.injEq] at h
    rw [heq, h]

lemma parseCategory_ok_cases (q : Query) (c : String) (h : parseCategory q = .ok c) :
    c = "" ∨ validCategory c = true := by
  simp only [parseCategory] at h
  split_ifs at h with h1 h2
  · simp only [Except.ok.injEq] at h
    exact Or.inl h.symm
  · simp only [Except.ok.injEq] at h
    exact Or.inr (h ▸ h2)

lemma parseQueryOptions_ok_iff (q : Query) (opts : ProductQueryParameters) :
    parseQueryOptions q = .ok opts ↔
      parseOffset q = .ok opts.offset ∧ parseLimit q = .ok opts.limit ∧
      parseCategory q = .ok opts.category ∧
      parsePriceLessThan q = .ok opts.priceLessThan := by
  simp only [parseQueryOptions]
  rcases h1 : parseOffset q with e1 | o
  · simp
  · rcases h2 : parseLimit q with e2 | l
    · simp
    · rcases h3 : parseCategory q with e3 | c
      · simp
      · rcases h4 : parsePriceLessThan q with e4 | pr
        · simp
        · constructor
          · intro h
            simp only [Except.ok.injEq] at h
            rw [← h]
            exact ⟨rfl, rfl, rfl, rfl⟩
          · rintro ⟨ho, hl, hc, hp⟩
            simp only [Except.ok.injEq] at ho hl hc hp
            cases opts
            simp_all

lemma qget_filter_self (q : Query) (name : String) :
    qget (q.filter fun kv => kv.1 != name) name = "" := by
  induction q with
  | nil => rfl
  | cons kv rest ih =>
    obtain ⟨k, v⟩ := kv
    by_cases hk : k = name
    · simpa [List.filter_cons, hk] using ih
    · simpa [List.filter_cons, hk, qget] using ih

lemma qget_filter_ne (q : Query) (name k2 : String) (hk : k2 ≠ name) :
    qget (q.filter fun kv => kv.1 != name) k2 = qget q k2 := by
  induction q with
  | nil => rfl
  | cons kv rest ih =>
    obtain ⟨k, v⟩ := kv
    have hnk : name ≠ k2 := fun h => hk h.symm
    by_cases hkn : k = name
    · have hkk : k ≠ k2 := by
        rw [hkn]
        exact hnk
      simp [List.filter_cons, hkn, qget, hkk, ih, hnk]
    · by_cases hkk : k = k2
      · simp [List.filter_cons, hkn, qget, hkk, ih, hk]
      · simp [List.filter_cons, hkn, qget, hkk, ih, hk]

lemma parseQueryOptions_eq_of_qget (q q2 : Query)
    (h1 : qget q "offset" = qget q2 "offset")
    (h2 : qget q "limit" = qget q2 "limit")
    (h3 : qget q "category" = qget q2 "category")
    (h4 : qget q "price_less_than" = qget q2 "price_less_than") :
    parseQueryOptions q = parseQueryOptions q2 := by
  simp only [parseQueryOptions, parseOffset, parseLimit, parseCategory,
    parsePriceLessThan, h1, h2, h3, h4]

/-! ### Properties of the `%q` model -/

lemma goEscape_plain_list (l : List Char) (h : ∀ c ∈ l, plainChar c = true) :
    l.foldr (fun c acc => goEscapeChar c ++ acc) ['\"'] = l ++ ['\"'] := by
  induction l with
  | nil => rfl
  | cons c cs ih =>
    have hc : plainChar c = true := h c (List.mem_cons_self c cs)
    have hcs := ih fun x hx => h x (List.mem_cons_of_mem _ hx)
    simp only [plainChar, Bool.and_eq_true, decide_eq_true_eq] at hc
    obtain ⟨⟨⟨hc1, hc2⟩, hc3⟩, hc4⟩ := hc
    have hesc : goEscapeChar c = [c] := by
      simp only [goEscapeChar]
      rw [if_neg hc3, if_neg hc4, if_neg (by omega)]
    simp only [List.foldr_cons, hcs, hesc, List.cons_append, List.nil_append]

lemma goQuote_plain (s : String) (h : ∀ c ∈ s.data, plainChar c = true) :
    goQuote s = "\"" ++ s ++ "\"" := by
  obtain ⟨l⟩ := s
  simp only [goQuote]
  rw [goEscape_plain_list l h]
  apply congrArg String.mk
  simp

/-! ### The claims -/

/-- C1: in `HandleGetByCode`'s variant mapping, a variant whose stored price
is the decimal zero gets the parent product's (rendered) price, a variant
with a non-zero price keeps its own (rendered) price, and a returned variant
price is zero only if the parent product's price is zero. -/
theorem c1_variant_price_inheritance (p : Product) (v : Variant) (hv : v ∈ p.variants) :
    mapVariant p.price v ∈ (productDetailResponse p).variants ∧
    (v.price.isZero = true →
      (mapVariant p.price v).price = (productDetailResponse p).price) ∧
    (v.price.isZero = false →
      (mapVariant p.price v).price = v.price.inexactFloat64) ∧
    ((mapVariant p.price v).price = 0 → p.price.isZero = true) := by
  refine ⟨?_, ?_, ?_, ?_⟩
  · simp only [productDetailResponse]
    exact List.mem_map_of_mem _ hv
  · intro h
    simp [mapVariant, productDetailResponse, h]
  · intro h
    simp [mapVariant, h]
  · intro h
    by_cases hz : v.price.isZero = true
    · simp only [mapVariant, hz, if_true] at h
      exact (Decimal.isZero_iff _).mpr ((Decimal.inexactFloat64_eq_zero_iff _).mp h)
    · simp only [mapVariant, hz, Bool.false_eq_true, if_false] at h
      exact absurd ((Decimal.isZero_iff _).mpr ((Decimal.inexactFloat64_eq_zero_iff _).mp h)) hz

/-- Witness for C1: a variant priced `0` under a parent priced `100.00`
(stored as `10000 * 10 ^ (-2)`) renders the parent's own rendered price. -/
theorem c1_variant_price_inheritance_witness :
    (⟨"V1", "SKU1", ⟨0, 0⟩⟩ : Variant).price.isZero = true ∧
    (mapVariant (⟨10000, -2⟩ : Decimal) ⟨"V1", "SKU1", ⟨0, 0⟩⟩).price
      = (productDetailResponse
          ⟨"P1", ⟨10000, -2⟩, none, [⟨"V1", "SKU1", ⟨0, 0⟩⟩]⟩).price :=
  ⟨by decide,
    (c1_variant_price_inheritance ⟨"P1", ⟨10000, -2⟩, none, [⟨"V1", "SKU1", ⟨0, 0⟩⟩]⟩
      ⟨"V1", "SKU1", ⟨0, 0⟩⟩ (by decide)).2.1 (by decide)⟩

/-- C2: with a non-empty `category` parameter, the parser accepts exactly
the values whose trimmed upper-casing is CLOTHING, SHOES or ACCESSORIES,
storing the normalized value; on rejection the message is
`invalid category "<original>"` with the original input quoted (verbatim for
input needing no `%q` escape). -/
theorem c2_category_parsing (q : Query) (h : qget q "category" ≠ "") :
    (parseCategory q = .ok (trimStr (toUpperStr (qget q "category"))) ↔
      (trimStr (toUpperStr (qget q "category")) = "CLOTHING" ∨
        trimStr (toUpperStr (qget q "category")) = "SHOES" ∨
        trimStr (toUpperStr (qget q "category")) = "ACCESSORIES")) ∧
    (parseCategory q = .error ("invalid category " ++ goQuote (qget q "category")) ↔
      ¬(trimStr (toUpperStr (qget q "category")) = "CLOTHING" ∨
        trimStr (toUpperStr (qget q "category")) = "SHOES" ∨
        trimStr (toUpperStr (qget q "category")) = "ACCESSORIES")) ∧
    ((∀ c ∈ (qget q "category").data, plainChar c = true) →
      goQuote (qget q "category") = "\"" ++ qget q "category" ++ "\"") := by
  refine ⟨?_, ?_, fun hp => goQuote_plain _ hp⟩
  · simp only [parseCategory, if_neg h]
    by_cases hv : validCategory (trimStr (toUpperStr (qget q "category"))) = true
    · rw [if_pos hv]
      exact iff_of_true rfl ((validCategory_iff _).mp hv)
    · rw [if_neg hv]
      exact iff_of_false (by simp) fun hd => hv ((validCategory_iff _).mpr hd)
  · simp only [parseCategory, if_neg h]
    by_cases hv : validCategory (trimStr (toUpperStr (qget q "category"))) = true
    · rw [if_pos hv]
      exact iff_of_false (by simp) fun hn => hn ((validCategory_iff _).mp hv)
    · rw [if_neg hv]
      exact iff_of_true rfl fun hd => hv ((validCategory_iff _).mpr hd)

/-- Witness for C2: `category=Hats` is rejected with
`invalid category "Hats"`, the original casing preserved. -/
theorem c2_category_parsing_witness :
    qget [("category", "Hats")] "category" ≠ "" ∧
    parseCategory [("category", "Hats")] = .error "invalid category \"Hats\"" ∧
    (parseCategory [("category", "Hats")]
        = .error ("invalid category " ++ goQuote (qget [("category", "Hats")] "category")) ↔
      ¬(trimStr (toUpperStr (qget [("category", "Hats")] "category")) = "CLOTHING" ∨
        trimStr (toUpperStr (qget [("category", "Hats")] "category")) = "SHOES" ∨
        trimStr (toUpperStr (qget [("category", "Hats")] "category")) = "ACCESSORIES")) :=
  ⟨by decide, by decide, (c2_category_parsing [("category", "Hats")] (by decide)).2.1⟩

/-- C3 counterexample: the product price 99.99 (stored exactly as the
decimal `9999 * 10 ^ (-2)`) is rendered by the listing DTO mapping to a
value different from the stored decimal — the `float64` conversion
(`InexactFloat64`) moves it to the nearest binary64 value, so the rendered
price does not carry the stored decimal exactly. -/
theorem c3_counterexample :
    (⟨9999, -2⟩ : Decimal).toRat = 9999 / 100 ∧
    (productToDTO ⟨"PROD001", ⟨9999, -2⟩, none, []⟩).price ≠ 9999 / 100 := by
  constructor
  · rw [Decimal.toRat]
    norm_num
  · show (Decimal.inexactFloat64 ⟨9999, -2⟩) ≠ 9999 / 100
    rw [Decimal.inexactFloat64, if_neg (by decide), if_neg (by decide),
      show (⟨9999, -2⟩ : Decimal).num = 9999 from by decide,
      show (⟨9999, -2⟩ : Decimal).den = 100 from by decide]
    have h1 : f64exp 9999 100 = 6 := by decide
    have h2 : roundNearestEven 703617073032462336 100 = 7036170730324623 := by decide
    simp only [f64pos, h1, show ((52 : ℤ) - 6).toNat = 46 from by decide,
      show ((6 : ℤ) - 52).toNat = 0 from by decide]
    norm_num [h2]

/-- C3 amended: prices are parsed and compared as exact decimals, but every
DTO price is rendered through the binary64 conversion `InexactFloat64`, so a
rendered price is always a dyadic rational (`m * 2 ^ k`) and can differ from
the stored decimal; the `price_less_than` parameter, in contrast, is parsed
exactly with no float conversion. -/
theorem c3_amended (p : Product) :
    (productToDTO p).price = p.price.inexactFloat64 ∧
    (∃ m k : ℤ, (productToDTO p).price = (m : ℚ) * 2 ^ k) ∧
    (∀ (q : Query) (dec : Decimal), qget q "price_less_than" ≠ "" →
      parseDecimal (qget q "price_less_than") = some dec →
      parsePriceLessThan q = .ok (some dec)) := by
  refine ⟨rfl, Decimal.inexactFloat64_dyadic p.price, ?_⟩
  intro q dec hne hd
  simp [parsePriceLessThan, if_neg hne, hd]

/-- Witness for C3 (amended): the filter value `price_less_than=99.99` is
stored as the exact decimal `9999 * 10 ^ (-2)`. -/
theorem c3_amended_witness :
    qget [("price_less_than", "99.99")] "price_less_than" ≠ "" ∧
    parseDecimal (qget [("price_less_than", "99.99")] "price_less_than")
      = some ⟨9999, -2⟩ ∧
    parsePriceLessThan [("price_less_than", "99.99")] = .ok (some ⟨9999, -2⟩) :=
  ⟨by decide, by decide,
    (c3_amended ⟨"P", ⟨0, 0⟩, none, []⟩).2.2 [("price_less_than", "99.99")]
      ⟨9999, -2⟩ (by decide) (by decide)⟩

/-- C4: `limit` parsing succeeds exactly when the parameter is absent or an
integer in [1,100]; `limit=0`, `limit=101` and non-numeric input all get the
identical message `limit must be between 1 and 100`; an accepted limit is
echoed exactly through the parsed options into the response envelope. -/
theorem c4_limit_validation (q : Query) :
    ((∃ l, parseLimit q = .ok l) ↔
      (qget q "limit" = "" ∨
        ∃ l, atoi (qget q "limit") = some l ∧ 1 ≤ l ∧ l ≤ 100)) ∧
    ((qget q "limit" = "0" ∨ qget q "limit" = "101" ∨
        (qget q "limit" ≠ "" ∧ atoi (qget q "limit") = none)) →
      parseLimit q = .error "limit must be between 1 and 100") ∧
    (∀ opts, parseQueryOptions q = .ok opts → parseLimit q = .ok opts.limit) ∧
    (∀ opts repo res total, parseQueryOptions q = .ok opts →
      repo opts = .ok (res, total) →
      handleGet q repo = .ok ⟨res.map productToDTO, total, opts.offset, opts.limit⟩) := by
  refine ⟨⟨?_, ?_⟩, ?_, ?_, ?_⟩
  · rintro ⟨l, hl⟩
    by_cases hs : qget q "limit" = ""
    · exact Or.inl hs
    · obtain ⟨h1, h2⟩ := parseLimit_ok_range q l hl
      exact Or.inr ⟨l, parseLimit_ok_atoi q l hl hs, h1, h2⟩
  · rintro (hs | ⟨l, ha, h1, h2⟩)
    · exact ⟨10, parseLimit_absent q hs⟩
    · refine ⟨l, ?_⟩
      have hs : qget q "limit" ≠ "" := by
        intro h0
        rw [h0] at ha
        simp [show atoi "" = none from rfl] at ha
      simp only [parseLimit, if_neg hs, ha]
      rw [if_neg (by omega)]
  · rintro (hs | hs | ⟨hne, hnone⟩)
    · have hne : qget q "limit" ≠ "" := by rw [hs]; decide
      have ha : atoi (qget q "limit") = some 0 := by rw [hs]; decide
      simp only [parseLimit, if_neg hne, ha]
      rw [if_pos (by omega)]
    · have hne : qget q "limit" ≠ "" := by rw [hs]; decide
      have ha : atoi (qget q "limit") = some 101 := by rw [hs]; decide
      simp only [parseLimit, if_neg hne, ha]
      rw [if_pos (by omega)]
    · simp only [parseLimit, if_neg hne, hnone]
  · intro opts hopt
    exact ((parseQueryOptions_ok_iff q opts).mp hopt).2.1
  · intro opts repo res total hopt hrepo
    simp only [handleGet, hopt, hrepo]

/-- Witness for C4: `limit=42` parses, is within range, and is echoed in
the envelope together with the default offset 0. -/
theorem c4_limit_validation_witness :
    parseQueryOptions [("limit", "42")]
      = .ok ⟨0, 42, "", none⟩ ∧
    handleGet [("limit", "42")] (fun _ => .ok ([], 0))
      = .ok ⟨[], 0, (⟨0, 42, "", none⟩ : ProductQueryParameters).offset,
          (⟨0, 42, "", none⟩ : ProductQueryParameters).limit⟩ :=
  ⟨by decide,
    (c4_limit_validation [("limit", "42")]).2.2.2 ⟨0, 42, "", none⟩
      (fun _ => .ok ([], 0)) [] 0 (by decide) rfl⟩

/-- C5: validation stops at the first failing parameter in the fixed order
offset, limit, category, price_less_than — the surfaced error is exactly the
first stage's error — and each absent parameter contributes its default
(offset 0, limit 10, no category, no price filter). -/
theorem c5_first_failure_order (q : Query) :
    (∀ e, parseOffset q = .error e → parseQueryOptions q = .error e) ∧
    (∀ o e, parseOffset q = .ok o → parseLimit q = .error e →
      parseQueryOptions q = .error e) ∧
    (∀ o l e, parseOffset q = .ok o → parseLimit q = .ok l →
      parseCategory q = .error e → parseQueryOptions q = .error e) ∧
    (∀ o l c e, parseOffset q = .ok o → parseLimit q = .ok l →
      parseCategory q = .ok c → parsePriceLessThan q = .error e →
      parseQueryOptions q = .error e) ∧
    (∀ o l c pr, parseOffset q = .ok o → parseLimit q = .ok l →
      parseCategory q = .ok c → parsePriceLessThan q = .ok pr →
      parseQueryOptions q = .ok ⟨o, l, c, pr⟩) ∧
    (qget q "offset" = "" → parseOffset q = .ok 0) ∧
    (qget q "limit" = "" → parseLimit q = .ok 10) ∧
    (qget q "category" = "" → parseCategory q = .ok "") ∧
    (qget q "price_less_than" = "" → parsePriceLessThan q = .ok none) := by
  refine ⟨?_, ?_, ?_, ?_, ?_, parseOffset_absent q, parseLimit_absent q,
    parseCategory_absent q, parsePriceLessThan_absent q⟩
  · intro e h
    simp [parseQueryOptions, h]
  · intro o e h1 h2
    simp [parseQueryOptions, h1, h2]
  · intro o l e h1 h2 h3
    simp [parseQueryOptions, h1, h2, h3]
  · intro o l c e h1 h2 h3 h4
    simp [parseQueryOptions, h1, h2, h3, h4]
  · intro o l c pr h1 h2 h3 h4
    simp [parseQueryOptions, h1, h2, h3, h4]

/-- Witness for C5: with both `offset` and `limit` invalid, only the offset
error is surfaced. -/
theorem c5_first_failure_order_witness :
    parseOffset [("offset", "-1"), ("limit", "abc")] = .error "invalid offset parameter" ∧
    parseQueryOptions [("offset", "-1"), ("limit", "abc")]
      = .error "invalid offset parameter" :=
  ⟨by decide,
    (c5_first_failure_order [("offset", "-1"), ("limit", "abc")]).1
      "invalid offset parameter" (by decide)⟩

/-- C6: `HandleGetByCode` answers 400 with the code-required validation
message exactly when the code is empty; a not-found repository outcome gives
the distinct 404 with body `product not found`; any other repository error
gives 500 carrying that error's message. -/
theorem c6_get_by_code_errors (code : String) (repo : GetByCodeResult) :
    (handleGetByCode code repo = .err 400 "product code is required" ↔ code = "") ∧
    (code ≠ "" → handleGetByCode code .notFound = .err 404 "product not found") ∧
    (code ≠ "" → ∀ msg, handleGetByCode code (.failure msg) = .err 500 msg) ∧
    (code ≠ "" → ∀ p, handleGetByCode code (.found p) = .ok (productDetailResponse p)) := by
  refine ⟨?_, ?_, ?_, ?_⟩
  · by_cases hc : code = ""
    · simp [handleGetByCode, hc]
    · simp only [handleGetByCode, if_neg hc]
      cases repo <;> simp [hc]
  · intro hc
    simp [handleGetByCode, hc]
  · intro hc msg
    simp [handleGetByCode, hc]
  · intro hc p
    simp [handleGetByCode, hc]

/-- Witness for C6: a non-empty code with a not-found repository outcome is
a 404 `product not found`, and the empty code is the 400 validation error. -/
theorem c6_get_by_code_errors_witness :
    (handleGetByCode "" GetByCodeResult.notFound
        = .err 400 "product code is required" ↔ ("" : String) = "") ∧
    handleGetByCode "MISSING" .notFound = .err 404 "product not found" :=
  ⟨(c6_get_by_code_errors "" .notFound).1,
    (c6_get_by_code_errors "MISSING" .notFound).2.1 (by decide)⟩

/-- C7: `HandleCreate` answers 400 `invalid request body` when the payload
fails to decode, 400 `code and name are required` exactly when it decodes
with an empty code or name, and otherwise persists the record built from the
payload and echoes back its code and name. -/
theorem c7_create_category (repo : Category → Except String Unit) :
    (handleCreate none repo = .err 400 "invalid request body") ∧
    (∀ req, (handleCreate (some req) repo = .err 400 "code and name are required" ↔
      (req.code = "" ∨ req.name = ""))) ∧
    (∀ req, req.code ≠ "" → req.name ≠ "" → repo (persistedCategory req) = .ok () →
      handleCreate (some req) repo = .ok ⟨req.code, req.name⟩) := by
  refine ⟨rfl, ?_, ?_⟩
  · intro req
    by_cases hcn : req.code = "" ∨ req.name = ""
    · simp [handleCreate, hcn]
    · simp only [handleCreate, if_neg hcn]
      rcases hr : repo (persistedCategory req) with e | u <;> simp [hcn]
  · intro req h1 h2 h3
    have hcn : ¬(req.code = "" ∨ req.name = "") := by
      rintro (h | h)
      · exact h1 h
      · exact h2 h
    simp only [persistedCategory] at h3
    simp [handleCreate, hcn, h3, persistedCategory]

/-- Witness for C7: a well-formed payload with both fields is created and
echoed; a payload with an empty name is the required-fields 400. -/
theorem c7_create_category_witness :
    handleCreate (some ⟨"ELECTRONICS", "Electronics"⟩) (fun _ => .ok ())
      = .ok ⟨"ELECTRONICS", "Electronics"⟩ ∧
    (handleCreate (some ⟨"ELECTRONICS", ""⟩) (fun _ => .ok ())
        = .err 400 "code and name are required" ↔
      (("ELECTRONICS" : String) = "" ∨ ("" : String) = "")) :=
  ⟨(c7_create_category (fun _ => .ok ())).2.2 ⟨"ELECTRONICS", "Electronics"⟩
      (by decide) (by decide) rfl,
    (c7_create_category (fun _ => .ok ())).2.1 ⟨"ELECTRONICS", ""⟩⟩

/-- C8 counterexample: `HandleCreate` performs no uppercase normalization —
the payload code `electronics` is persisted and returned verbatim, and it
differs from its uppercase normalization `ELECTRONICS`. -/
theorem c8_counterexample :
    handleCreate (some ⟨"electronics", "Electronics"⟩) (fun _ => .ok ())
      = .ok ⟨"electronics", "Electronics"⟩ ∧
    (persistedCategory ⟨"electronics", "Electronics"⟩).code = "electronics" ∧
    toUpperStr "electronics" = "ELECTRONICS" ∧
    ("electronics" : String) ≠ "ELECTRONICS" :=
  ⟨rfl, rfl, by decide, by decide⟩

/-- C8 amended: for every successful create call the code persisted to
storage and the code returned in the response are exactly the payload's
code, with no normalization applied (uppercase codes are a data convention,
not enforced by the handler). -/
theorem c8_create_code_verbatim (req : CreateCategoryRequest)
    (repo : Category → Except String Unit)
    (h1 : req.code ≠ "") (h2 : req.name ≠ "")
    (h3 : repo (persistedCategory req) = .ok ()) :
    (persistedCategory req).code = req.code ∧
    (persistedCategory req).name = req.name ∧
    handleCreate (some req) repo = .ok ⟨req.code, req.name⟩ := by
  refine ⟨rfl, rfl, ?_⟩
  have hcn : ¬(req.code = "" ∨ req.name = "") := by
    rintro (h | h)
    · exact h1 h
    · exact h2 h
  simp only [persistedCategory] at h3
  simp [handleCreate, hcn, h3, persistedCategory]

/-- Witness for C8 (amended): the lowercase payload code is persisted and
echoed unchanged. -/
theorem c8_create_code_verbatim_witness :
    (persistedCategory ⟨"electronics2", "E"⟩).code = "electronics2" ∧
    (persistedCategory ⟨"electronics2", "E"⟩).name = "E" ∧
    handleCreate (some ⟨"electronics2", "E"⟩) (fun _ => .ok ())
      = .ok ⟨"electronics2", "E"⟩ :=
  c8_create_code_verbatim ⟨"electronics2", "E"⟩ (fun _ => .ok ())
    (by decide) (by decide) rfl

/-- C9: every accepted query yields a filter with nonnegative offset, limit
in [1,100], and a category that is either empty or exactly one of the
uppercase allow-list values. -/
theorem c9_accepted_filter_invariant (q : Query) (opts : ProductQueryParameters)
    (h : parseQueryOptions q = .ok opts) :
    0 ≤ opts.offset ∧ 1 ≤ opts.limit ∧ opts.limit ≤ 100 ∧
    (opts.category = "" ∨ opts.category = "CLOTHING" ∨ opts.category = "SHOES" ∨
      opts.category = "ACCESSORIES") := by
  obtain ⟨ho, hl, hc, _⟩ := (parseQueryOptions_ok_iff q opts).mp h
  obtain ⟨hl1, hl2⟩ := parseLimit_ok_range q opts.limit hl
  refine ⟨parseOffset_ok_nonneg q opts.offset ho, hl1, hl2, ?_⟩
  rcases parseCategory_ok_cases q opts.category hc with h0 | hv
  · exact Or.inl h0
  · rcases (validCategory_iff _).mp hv with h1 | h1 | h1
    · exact Or.inr (Or.inl h1)
    · exact Or.inr (Or.inr (Or.inl h1))
    · exact Or.inr (Or.inr (Or.inr h1))

/-- Witness for C9: an untrimmed lowercase `category= shoes ` is accepted
and normalized to the uppercase allow-list value. -/
theorem c9_accepted_filter_invariant_witness :
    0 ≤ (⟨5, 50, "SHOES", none⟩ : ProductQueryParameters).offset ∧
    1 ≤ (⟨5, 50, "SHOES", none⟩ : ProductQueryParameters).limit ∧
    (⟨5, 50, "SHOES", none⟩ : ProductQueryParameters).limit ≤ 100 ∧
    ((⟨5, 50, "SHOES", none⟩ : ProductQueryParameters).category = "" ∨
      (⟨5, 50, "SHOES", none⟩ : ProductQueryParameters).category = "CLOTHING" ∨
      (⟨5, 50, "SHOES", none⟩ : ProductQueryParameters).category = "SHOES" ∨
      (⟨5, 50, "SHOES", none⟩ : ProductQueryParameters).category = "ACCESSORIES") :=
  c9_accepted_filter_invariant [("offset", "5"), ("limit", "50"), ("category", " shoes ")]
    ⟨5, 50, "SHOES", none⟩ (by decide)

/-- C10: a parameter supplied with an empty value behaves exactly like an
absent parameter: the whole parse is unchanged when all its occurrences are
removed from the query (in particular it is never a validation error), and
the corresponding default (offset 0, limit 10, no category, no price filter)
is used on success. -/
theorem c10_empty_value_like_absent (q : Query) :
    (qget q "offset" = "" →
      parseQueryOptions q = parseQueryOptions (q.filter fun kv => kv.1 != "offset") ∧
      ∀ opts, parseQueryOptions q = .ok opts → opts.offset = 0) ∧
    (qget q "limit" = "" →
      parseQueryOptions q = parseQueryOptions (q.filter fun kv => kv.1 != "limit") ∧
      ∀ opts, parseQueryOptions q = .ok opts → opts.limit = 10) ∧
    (qget q "category" = "" →
      parseQueryOptions q = parseQueryOptions (q.filter fun kv => kv.1 != "category") ∧
      ∀ opts, parseQueryOptions q = .ok opts → opts.category = "") ∧
    (qget q "price_less_than" = "" →
      parseQueryOptions q
        = parseQueryOptions (q.filter fun kv => kv.1 != "price_less_than") ∧
      ∀ opts, parseQueryOptions q = .ok opts → opts.priceLessThan = none) := by
  refine ⟨fun h => ⟨?_, ?_⟩, fun h => ⟨?_, ?_⟩, fun h => ⟨?_, ?_⟩, fun h => ⟨?_, ?_⟩⟩
  · exact parseQueryOptions_eq_of_qget _ _ (by rw [h, qget_filter_self])
      (qget_filter_ne q "offset" "limit" (by decide)).symm
      (qget_filter_ne q "offset" "category" (by decide)).symm
      (qget_filter_ne q "offset" "price_less_than" (by decide)).symm
  · intro opts hopt
    have ho := ((parseQueryOptions_ok_iff q opts).mp hopt).1
    rw [parseOffset_absent q h] at ho
    simpa using ho.symm
  · exact parseQueryOptions_eq_of_qget _ _
      (qget_filter_ne q "limit" "offset" (by decide)).symm
      (by rw [h, qget_filter_self])
      (qget_filter_ne q "limit" "category" (by decide)).symm
      (qget_filter_ne q "limit" "price_less_than" (by decide)).symm
  · intro opts hopt
    have hl := ((parseQueryOptions_ok_iff q opts).mp hopt).2.1
    rw [parseLimit_absent q h] at hl
    simpa using hl.symm
  · exact parseQueryOptions_eq_of_qget _ _
      (qget_filter_ne q "category" "offset" (by decide)).symm
      (qget_filter_ne q "category" "limit" (by decide)).symm
      (by rw [h, qget_filter_self])
      (qget_filter_ne q "category" "price_less_than" (by decide)).symm
  · intro opts hopt
    have hc := ((parseQueryOptions_ok_iff q opts).mp hopt).2.2.1
    rw [parseCategory_absent q h] at hc
    simpa using hc.symm
  · exact parseQueryOptions_eq_of_qget _ _
      (qget_filter_ne q "price_less_than" "offset" (by decide)).symm
      (qget_filter_ne q "price_less_than" "limit" (by decide)).symm
      (qget_filter_ne q "price_less_than" "category" (by decide)).symm
      (by rw [h, qget_filter_self])
  · intro opts hopt
    have hp := ((parseQueryOptions_ok_iff q opts).mp hopt).2.2.2
    rw [parsePriceLessThan_absent q h] at hp
    simpa using hp.symm

/-- Witness for C10: `?offset=&limit=5` parses exactly like `?limit=5`,
with the default offset 0. -/
theorem c10_empty_value_like_absent_witness :
    parseQueryOptions [("offset", ""), ("limit", "5")]
      = parseQueryOptions
          ([("offset", ""), ("limit", "5")].filter fun kv => kv.1 != "offset") ∧
    (⟨0, 5, "", none⟩ : ProductQueryParameters).offset = 0 :=
  ⟨((c10_empty_value_like_absent [("offset", ""), ("limit", "5")]).1 (by decide)).1,
    ((c10_empty_value_like_absent [("offset", ""), ("limit", "5")]).1 (by decide)).2
      ⟨0, 5, "", none⟩ (by decide)⟩

end Mytheresa
